import Mathlib

/-
Verification of the odm-plugin-js gRPC plugin SDK.

This file shallowly embeds the TypeScript sources:
  - the ProtobufHelper codec (packAny / unpackAny) over google.protobuf.Any,
  - the PluginServer.handleExecute dispatcher,
  - the example MyCustomPlugin.execute contract,
  - the PluginMain.start lifecycle (port selection, stdout handshake,
    signal handlers and exit codes).

JavaScript dynamic values are embedded as the inductive type JSValue.
JS numbers are modelled by JSNumber: NaN plus finite decimal numbers
represented as an integer mantissa m with a decimal scale e (value
m / 10 ^ e); this covers exactly the decimal-representable finite doubles
the specification quantifies over.  The JS builtins the source calls
(Number.prototype.toString, parseFloat, parseInt, JSON.stringify,
JSON.parse, Buffer UTF-8 round-trip, String.prototype.includes) are
modelled here faithfully to their standard semantics on that domain;
byte buffers holding UTF-8 text are collapsed to the decoded string,
since Buffer.from(s, "utf8").toString("utf8") is the identity on
well-formed strings.  Char.toUpper / Char.toLower model the ASCII
fragment of toUpperCase / toLowerCase, which is exact on every input
exercised here.
-/

/-- Model of a JS number: NaN, or the finite decimal value m / 10 ^ e. -/
inductive JSNumber where
  | nan
  | fin (m : Int) (e : Nat)
deriving DecidableEq

/-- Model of a JS dynamic (JSON-like) value. -/
inductive JSValue where
  | null
  | bool (b : Bool)
  | num (n : JSNumber)
  | str (s : String)
  | arr (elems : List JSValue)
  | obj (fields : List (String × JSValue))

/- ---------- character and digit helpers ---------- -/

/-- Decimal digit characters of a natural number, most significant first. -/
def natDigits (n : Nat) : List Char :=
  if n = 0 then ['0'] else ((Nat.digits 10 n).reverse.map Nat.digitChar)

/-- Numeric value of a decimal digit character. -/
def digitVal (c : Char) : Nat := c.toNat - 48

/-- Left fold turning a big-endian digit string into a natural number. -/
def foldDigits (l : List Char) : Nat := l.foldl (fun a c => a * 10 + digitVal c) 0

/-- Decimal digit character test. -/
def isDigitChar (c : Char) : Bool :=
  48 ≤ c.toNat ∧ c.toNat ≤ 57

/-- Split a character list into its longest decimal-digit prefix and the rest. -/
def takeDigits : List Char → List Char × List Char
  | [] => ([], [])
  | c :: r =>
      if isDigitChar c then
        let p := takeDigits r
        (c :: p.1, p.2)
      else ([], c :: r)

/-- The four JSON whitespace characters (also the leading whitespace
skipped by the numeric parsing builtins in this model). -/
def isWsChar (c : Char) : Bool :=
  c.toNat = 32 ∨ c.toNat = 9 ∨ c.toNat = 10 ∨ c.toNat = 13

/-- Drop leading whitespace. -/
def skipWs : List Char → List Char
  | [] => []
  | c :: r => if isWsChar c then skipWs r else c :: r

/-- Does the list start with the given character? -/
def headIs (c : Char) : List Char → Bool
  | [] => false
  | x :: _ => x = c

/-- Model of JS String.prototype.includes (substring containment). -/
def strIncludes (s sub : String) : Bool :=
  s.data.tails.any (fun t => sub.data.isPrefixOf t)

/- ---------- number printing (Number.prototype.toString) ---------- -/

/-- Decimal text of the non-negative number n / 10 ^ e: the digits of n
padded to at least e + 1 digits, with a decimal point e digits from the
right (omitted when e = 0). -/
def printFinAbs (n : Nat) (e : Nat) : List Char :=
  let ds := natDigits n
  let padded := List.replicate (e + 1 - ds.length) '0' ++ ds
  padded.take (padded.length - e) ++
    (if e = 0 then [] else '.' :: padded.drop (padded.length - e))

/-- Decimal text of a finite number m / 10 ^ e: optional minus sign, then
the decimal text of its absolute value. -/
def printFin (m : Int) (e : Nat) : List Char :=
  (if m < 0 then ['-'] else []) ++ printFinAbs m.natAbs e

/-- Model of Number.prototype.toString on the embedded number domain. -/
def printNum : JSNumber → List Char
  | .nan => ['N', 'a', 'N']
  | .fin m e => printFin m e

/-- String form of a JS number. -/
def jsNumToString (n : JSNumber) : String := ⟨printNum n⟩

/-- String form of a natural number (used for template literals). -/
def natToString (n : Nat) : String := ⟨natDigits n⟩

/- ---------- parseFloat / parseInt ---------- -/

/-- Scale the decimal m / 10 ^ e by 10 ^ k (k an integer exponent). -/
def applyExp (m : Int) (e : Nat) (k : Int) : JSNumber :=
  if 0 ≤ k then
    if e ≤ k.toNat then .fin (m * (10 : Int) ^ (k.toNat - e)) 0
    else .fin m (e - k.toNat)
  else .fin m (e + (-k).toNat)

/-- Parse an optional exponent suffix (e or E, optional sign, digits) and
apply it; a malformed exponent is ignored, matching parseFloat's
longest-valid-prefix semantics. -/
def parseFloatExp (m : Int) (e : Nat) (l : List Char) : JSNumber :=
  if headIs 'e' l ∨ headIs 'E' l then
    let l1 := l.tail
    let negExp := headIs '-' l1
    let l2 := if headIs '-' l1 ∨ headIs '+' l1 then l1.tail else l1
    let p := takeDigits l2
    if p.1 = [] then .fin m e
    else applyExp m e (if negExp then -(foldDigits p.1 : Int) else (foldDigits p.1 : Int))
  else .fin m e

/-- Model of the JS builtin parseFloat: skip leading whitespace, optional
sign, decimal digits with optional fraction and exponent, parsed as the
longest valid prefix; NaN when no digit is found.  (The Infinity literal is
not modelled.) -/
def parseFloatJS (s : String) : JSNumber :=
  let l := skipWs s.data
  let neg := headIs '-' l
  let l1 := if headIs '-' l ∨ headIs '+' l then l.tail else l
  let ipp := takeDigits l1
  let fpp := if headIs '.' ipp.2 then takeDigits ipp.2.tail else ([], ipp.2)
  if ipp.1 = [] ∧ fpp.1 = [] then .nan
  else
    let m0 : Int := foldDigits (ipp.1 ++ fpp.1)
    parseFloatExp (if neg then -m0 else m0) fpp.1.length fpp.2

/-- Hexadecimal digit value of a character, if any. -/
def hexVal (c : Char) : Option Nat :=
  if 48 ≤ c.toNat ∧ c.toNat ≤ 57 then some (c.toNat - 48)
  else if 97 ≤ c.toNat ∧ c.toNat ≤ 102 then some (c.toNat - 87)
  else if 65 ≤ c.toNat ∧ c.toNat ≤ 70 then some (c.toNat - 55)
  else none

/-- Split a character list into its longest hexadecimal-digit prefix and
the rest. -/
def takeHexDigits : List Char → List Char × List Char
  | [] => ([], [])
  | c :: r =>
      if (hexVal c).isSome then
        let p := takeHexDigits r
        (c :: p.1, p.2)
      else ([], c :: r)

/-- Left fold turning a big-endian hexadecimal digit string into a natural
number. -/
def foldHexDigits (l : List Char) : Nat :=
  l.foldl (fun a c => a * 16 + (hexVal c).getD 0) 0

/-- Model of the JS builtin parseInt with no radix argument: skip leading
whitespace, optional sign, then either a 0x/0X-prefixed hexadecimal literal
or decimal digits, as a longest valid prefix; none models NaN. -/
def parseIntJS (s : String) : Option Int :=
  let l := skipWs s.data
  let neg := headIs '-' l
  let l1 := if headIs '-' l ∨ headIs '+' l then l.tail else l
  if headIs '0' l1 ∧ (headIs 'x' l1.tail ∨ headIs 'X' l1.tail) then
    let p := takeHexDigits l1.tail.tail
    if p.1 = [] then none
    else some (if neg then -(foldHexDigits p.1 : Int) else (foldHexDigits p.1 : Int))
  else
    let p := takeDigits l1
    if p.1 = [] then none
    else some (if neg then -(foldDigits p.1 : Int) else (foldDigits p.1 : Int))

/- ---------- JSON.stringify (compact form) ---------- -/

/-- JSON.stringify escape of one string character: two-character escapes for
quote, backslash, backspace, tab, newline, form feed and carriage return;
a \u00XX escape for the remaining control characters; everything else
verbatim. -/
def escChar (c : Char) : List Char :=
  if c = '"' then ['\\', '"']
  else if c = '\\' then ['\\', '\\']
  else if c = '\x08' then ['\\', 'b']
  else if c = '\t' then ['\\', 't']
  else if c = '\n' then ['\\', 'n']
  else if c = '\x0c' then ['\\', 'f']
  else if c = '\x0d' then ['\\', 'r']
  else if c.toNat < 32 then
    ['\\', 'u', '0', '0', Nat.digitChar (c.toNat / 16), Nat.digitChar (c.toNat % 16)]
  else [c]

/-- Escape every character of a JSON string body. -/
def escapeChars : List Char → List Char
  | [] => []
  | c :: r => escChar c ++ escapeChars r

mutual

/-- Model of JSON.stringify with no indent argument.  NaN serializes as
null, numbers as their decimal text, strings quoted and escaped, arrays
and objects with no interior whitespace. -/
def printVal : JSValue → List Char
  | .null => "null".data
  | .bool true => "true".data
  | .bool false => "false".data
  | .num .nan => "null".data
  | .num (.fin m e) => printFin m e
  | .str s => '"' :: escapeChars s.data ++ ['"']
  | .arr [] => ['[', ']']
  | .arr (v :: vs) => '[' :: (printElemsCore (v :: vs) ++ [']'])
  | .obj [] => ['\x7b', '\x7d']
  | .obj (f :: fs) => '\x7b' :: (printFieldsCore (f :: fs) ++ ['\x7d'])

/-- Comma-separated serializations of array elements. -/
def printElemsCore : List JSValue → List Char
  | [] => []
  | [v] => printVal v
  | v :: vs => printVal v ++ ',' :: printElemsCore vs

/-- Comma-separated serializations of object members (quoted escaped key,
colon, value). -/
def printFieldsCore : List (String × JSValue) → List Char
  | [] => []
  | [(k, v)] => '"' :: escapeChars k.data ++ '"' :: ':' :: printVal v
  | (k, v) :: fs =>
      ('"' :: escapeChars k.data ++ '"' :: ':' :: printVal v) ++ ',' :: printFieldsCore fs

end

/-- JSON.stringify as a string-valued function. -/
def jsonStringify (v : JSValue) : String := ⟨printVal v⟩

mutual

/-- A value is serializable when it contains no NaN: on such values the
JSON text round-trips (NaN serializes as null and is not recovered). -/
def serializable : JSValue → Bool
  | .null => true
  | .bool _ => true
  | .num n => n ≠ JSNumber.nan
  | .str _ => true
  | .arr vs => serializableElems vs
  | .obj fs => serializableFields fs

def serializableElems : List JSValue → Bool
  | [] => true
  | v :: vs => serializable v && serializableElems vs

def serializableFields : List (String × JSValue) → Bool
  | [] => true
  | (_, v) :: fs => serializable v && serializableFields fs

end

mutual

/-- Parser fuel needed for a value (drives the fuel recursion of the
JSON parser below). -/
def jsize : JSValue → Nat
  | .null => 1
  | .bool _ => 1
  | .num _ => 1
  | .str _ => 1
  | .arr vs => 1 + jsizeElems vs
  | .obj fs => 1 + jsizeFields fs

def jsizeElems : List JSValue → Nat
  | [] => 0
  | v :: vs => 1 + jsize v + jsizeElems vs

def jsizeFields : List (String × JSValue) → Nat
  | [] => 0
  | (_, v) :: fs => 1 + jsize v + jsizeFields fs

end

/- ---------- JSON.parse ---------- -/

/-- Parse a JSON string body after the opening quote: plain characters,
two-character escapes, \u escapes; fails on a raw control character or at
end of input before the closing quote. -/
def parseStringBody : List Char → Option (List Char × List Char)
  | [] => none
  | c :: r =>
      if c = '"' then some ([], r)
      else if c = '\\' then
        match r with
        | [] => none
        | e :: r2 =>
            if e = '"' then (parseStringBody r2).map (fun p => ('"' :: p.1, p.2))
            else if e = '\\' then (parseStringBody r2).map (fun p => ('\\' :: p.1, p.2))
            else if e = '/' then (parseStringBody r2).map (fun p => ('/' :: p.1, p.2))
            else if e = 'b' then (parseStringBody r2).map (fun p => ('\x08' :: p.1, p.2))
            else if e = 't' then (parseStringBody r2).map (fun p => ('\t' :: p.1, p.2))
            else if e = 'n' then (parseStringBody r2).map (fun p => ('\n' :: p.1, p.2))
            else if e = 'f' then (parseStringBody r2).map (fun p => ('\x0c' :: p.1, p.2))
            else if e = 'r' then (parseStringBody r2).map (fun p => ('\x0d' :: p.1, p.2))
            else if e = 'u' then
              match r2 with
              | a :: b2 :: c2 :: d :: r3 =>
                  match hexVal a, hexVal b2, hexVal c2, hexVal d with
                  | some ha, some hb, some hc, some hd =>
                      (parseStringBody r3).map
                        (fun p => (Char.ofNat (((ha * 16 + hb) * 16 + hc) * 16 + hd) :: p.1, p.2))
                  | _, _, _, _ => none
              | _ => none
            else none
      else if c.toNat < 32 then none
      else (parseStringBody r).map (fun p => (c :: p.1, p.2))

/-- Parse an unsigned JSON number (integer part with no leading zero,
optional fraction, optional exponent). -/
def parseJsonNumberCore (l : List Char) : Option (JSNumber × List Char) :=
  let ipp := takeDigits l
  if ipp.1 = [] then none
  else if 2 ≤ ipp.1.length ∧ headIs '0' ipp.1 then none
  else
    let fok :=
      if headIs '.' ipp.2 then
        let p := takeDigits ipp.2.tail
        if p.1 = [] then none else some p
      else some ([], ipp.2)
    match fok with
    | none => none
    | some fpp =>
        let m0 : Int := foldDigits (ipp.1 ++ fpp.1)
        let e := fpp.1.length
        if headIs 'e' fpp.2 ∨ headIs 'E' fpp.2 then
          let l1 := fpp.2.tail
          let negExp := headIs '-' l1
          let l2 := if headIs '-' l1 ∨ headIs '+' l1 then l1.tail else l1
          let p := takeDigits l2
          if p.1 = [] then none
          else some (applyExp m0 e
            (if negExp then -(foldDigits p.1 : Int) else (foldDigits p.1 : Int)), p.2)
        else some (.fin m0 e, fpp.2)

/-- Parse a JSON number with optional leading minus sign. -/
def parseJsonNumber : List Char → Option (JSNumber × List Char)
  | [] => none
  | c :: r =>
      if c = '-' then
        (parseJsonNumberCore r).map
          (fun p => (match p.1 with | .nan => .nan | .fin m e => .fin (-m) e, p.2))
      else parseJsonNumberCore (c :: r)

mutual

/-- Fuel-indexed JSON value parser: leading whitespace, then a literal,
string, object, array or number. -/
def parseVal : Nat → List Char → Option (JSValue × List Char)
  | 0, _ => none
  | fuel + 1, l0 =>
      let l := skipWs l0
      if ['n', 'u', 'l', 'l'].isPrefixOf l then some (.null, l.drop 4)
      else if ['t', 'r', 'u', 'e'].isPrefixOf l then some (.bool true, l.drop 4)
      else if ['f', 'a', 'l', 's', 'e'].isPrefixOf l then some (.bool false, l.drop 5)
      else if headIs '"' l then
        (parseStringBody l.tail).map (fun p => (.str ⟨p.1⟩, p.2))
      else if headIs '\x7b' l then
        let l1 := skipWs l.tail
        if headIs '\x7d' l1 then some (.obj [], l1.tail)
        else (parseMembers fuel l1).map (fun p => (.obj p.1, p.2))
      else if headIs '[' l then
        let l1 := skipWs l.tail
        if headIs ']' l1 then some (.arr [], l1.tail)
        else (parseElems fuel l1).map (fun p => (.arr p.1, p.2))
      else (parseJsonNumber l).map (fun p => (.num p.1, p.2))

/-- Parse one or more comma-separated array elements and the closing
bracket. -/
def parseElems : Nat → List Char → Option (List JSValue × List Char)
  | 0, _ => none
  | fuel + 1, l =>
      match parseVal fuel l with
      | none => none
      | some (v, r) =>
          let r1 := skipWs r
          if headIs ',' r1 then
            (parseElems fuel r1.tail).map (fun p => (v :: p.1, p.2))
          else if headIs ']' r1 then some ([v], r1.tail)
          else none

/-- Parse one or more comma-separated object members and the closing
brace. -/
def parseMembers : Nat → List Char → Option (List (String × JSValue) × List Char)
  | 0, _ => none
  | fuel + 1, l =>
      if headIs '"' l then
        match parseStringBody l.tail with
        | none => none
        | some (k, r) =>
            let r1 := skipWs r
            if headIs ':' r1 then
              match parseVal fuel r1.tail with
              | none => none
              | some (v, r2) =>
                  let r3 := skipWs r2
                  if headIs ',' r3 then
                    (parseMembers fuel (skipWs r3.tail)).map
                      (fun p => ((⟨k⟩, v) :: p.1, p.2))
                  else if headIs '\x7d' r3 then some ([(⟨k⟩, v)], r3.tail)
                  else none
            else none
      else none

end

/-- Model of the JS builtin JSON.parse: parse one value, then allow only
trailing whitespace; a failure models the thrown SyntaxError, carrying its
message. -/
def jsonParse (s : String) : Except String JSValue :=
  match parseVal (s.data.length + 1) s.data with
  | some (v, rest) =>
      if skipWs rest = [] then .ok v
      else .error "Unexpected non-whitespace character after JSON data"
  | none => .error "Unexpected end of JSON input"

/- ---------- JSON.stringify with two-space indent ---------- -/

/-- Newline plus ind spaces. -/
def indentBreak (ind : Nat) : List Char := '\n' :: List.replicate ind ' '

mutual

/-- Model of JSON.stringify(value, null, 2): objects and arrays are broken
over lines with two-space indentation, one element per line, and a
": " separator after each key. -/
def prettyVal (ind : Nat) : JSValue → List Char
  | .null => "null".data
  | .bool true => "true".data
  | .bool false => "false".data
  | .num .nan => "null".data
  | .num (.fin m e) => printFin m e
  | .str s => '"' :: escapeChars s.data ++ ['"']
  | .arr [] => ['[', ']']
  | .arr (v :: vs) =>
      '[' :: (indentBreak (ind + 2) ++ prettyElems ind (v :: vs)
        ++ indentBreak ind ++ [']'])
  | .obj [] => ['\x7b', '\x7d']
  | .obj (f :: fs) =>
      '\x7b' :: (indentBreak (ind + 2) ++ prettyFields ind (f :: fs)
        ++ indentBreak ind ++ ['\x7d'])

def prettyElems (ind : Nat) : List JSValue → List Char
  | [] => []
  | [v] => prettyVal (ind + 2) v
  | v :: vs => prettyVal (ind + 2) v ++ ',' :: (indentBreak (ind + 2) ++ prettyElems ind vs)

def prettyFields (ind : Nat) : List (String × JSValue) → List Char
  | [] => []
  | [(k, v)] => '"' :: escapeChars k.data ++ '"' :: ':' :: ' ' :: prettyVal (ind + 2) v
  | (k, v) :: fs =>
      ('"' :: escapeChars k.data ++ '"' :: ':' :: ' ' :: prettyVal (ind + 2) v)
        ++ ',' :: (indentBreak (ind + 2) ++ prettyFields ind fs)

end

/-- JSON.stringify(value, null, 2) as a string-valued function. -/
def jsonStringifyPretty (v : JSValue) : String := ⟨prettyVal 0 v⟩

/- ---------- protobuf Any codec (ProtobufHelper) ---------- -/

/-- Model of a google.protobuf.Any message: the type URL tag and the
payload bytes, collapsed to their UTF-8 decoding. -/
structure AnyMsg where
  typeUrl : String
  value : String
deriving DecidableEq

/-- JS expression t || d where t is an optional string argument: the
default wins when the argument is absent or is the (falsy) empty
string. -/
def jsOrDefault (t : Option String) (d : String) : String :=
  match t with
  | some s => if s = "" then d else s
  | none => d

namespace ProtobufHelper

/-- Embedding of ProtobufHelper.packAny: dispatch on typeof value, store
the text encoding of the value, and tag with the supplied typeUrl if it is
truthy, otherwise with the inferred default tag. -/
def packAny (value : JSValue) (typeUrl : Option String) : AnyMsg :=
  match value with
  | .str s =>
      ⟨jsOrDefault typeUrl "type.googleapis.com/google.protobuf.StringValue", s⟩
  | .num n =>
      ⟨jsOrDefault typeUrl "type.googleapis.com/google.protobuf.DoubleValue",
        jsNumToString n⟩
  | .bool b =>
      ⟨jsOrDefault typeUrl "type.googleapis.com/google.protobuf.BoolValue",
        if b then "true" else "false"⟩
  | v =>
      ⟨jsOrDefault typeUrl "type.googleapis.com/google.protobuf.Struct",
        jsonStringify v⟩

/-- Embedding of ProtobufHelper.unpackAny: substring tests on the type URL
in source order, then the branch decoding; the error case models the
SyntaxError thrown by JSON.parse in the Struct branch. -/
def unpackAny (a : AnyMsg) : Except String JSValue :=
  let value := a.value
  let typeUrl := a.typeUrl
  if strIncludes typeUrl "StringValue" then .ok (.str value)
  else if strIncludes typeUrl "DoubleValue" then .ok (.num (parseFloatJS value))
  else if strIncludes typeUrl "BoolValue" then .ok (.bool (value == "true"))
  else if strIncludes typeUrl "Struct" then jsonParse value
  else .ok (.str value)

end ProtobufHelper

/- ---------- request/response data model ---------- -/

/-- Embedding of ExecutionRequestBody, with the args and options maps as
association lists in JS object property order. -/
structure ExecutionRequestBody where
  args : List (String × AnyMsg)
  options : List (String × AnyMsg)
  input : String

/-- Embedding of ExecutionResponse. -/
structure ExecutionResponse where
  result : String
deriving DecidableEq

/- ---------- dispatcher (PluginServer.handleExecute) ---------- -/

/-- A thrown JS value: an Error instance carrying a message, or any other
value. -/
inductive JSError where
  | error (message : String)
  | other (v : JSValue)

/-- The message the dispatcher extracts from a thrown value:
error instanceof Error ? error.message : "Unknown error". -/
def jsErrorMessage : JSError → String
  | .error m => m
  | .other _ => "Unknown error"

/-- Outcome of awaiting the contract promise: resolution or rejection. -/
inductive ExecOutcome where
  | success (r : ExecutionResponse)
  | failure (e : JSError)

/-- A single invocation of the gRPC callback: either a response or a
service error with a status code and message. -/
inductive CallbackInvocation where
  | ok (r : ExecutionResponse)
  | err (code : Nat) (message : String)
deriving DecidableEq

/-- The numeric value of grpc.status.INTERNAL. -/
def grpcStatusInternal : Nat := 13

namespace PluginServer

/-- Embedding of PluginServer.handleExecute: pass a resolved response to
the callback unchanged; map any rejection to a single INTERNAL error whose
message is the thrown error's message, or "Unknown error" for a non-Error
value. -/
def handleExecute (outcome : ExecOutcome) : CallbackInvocation :=
  match outcome with
  | .success response => .ok response
  | .failure e => .err grpcStatusInternal (jsErrorMessage e)

end PluginServer

/- ---------- example contract (MyCustomPlugin.execute) ---------- -/

/-- JS truthiness of a dynamic value. -/
def jsTruthy : JSValue → Bool
  | .null => false
  | .bool b => b
  | .num .nan => false
  | .num (.fin m _) => m ≠ 0
  | .str s => s ≠ ""
  | .arr _ => true
  | .obj _ => true

/-- JS strict equality of a dynamic value against a string literal (as in
a switch over string cases). -/
def jsStrictEqStr (v : JSValue) (s : String) : Bool :=
  match v with
  | .str t => t = s
  | _ => false

/-- Property assignment obj[k] = v on a JS object: overwrite the value of
an existing key keeping its position, else append the new key. -/
def objInsert (fields : List (String × JSValue)) (k : String) (v : JSValue) :
    List (String × JSValue) :=
  match fields with
  | [] => [(k, v)]
  | (k', v') :: tl =>
      if k' = k then (k', v) :: tl else (k', v') :: objInsert tl k v

/-- Property read obj[k] on a JS object. -/
def objGet (fields : List (String × JSValue)) (k : String) : Option JSValue :=
  match fields with
  | [] => none
  | (k', v) :: tl => if k' = k then some v else objGet tl k

/-- The for‑of loop over Object.entries assigning unpacked values into a
fresh object; the first unpack failure propagates (as in the source, where
ProtobufHelper.unpackAny may throw). -/
def unpackEntries (acc : List (String × JSValue)) :
    List (String × AnyMsg) → Except JSError (List (String × JSValue))
  | [] => .ok acc
  | (k, a) :: tl =>
      match ProtobufHelper.unpackAny a with
      | .error m => .error (.error m)
      | .ok v => unpackEntries (objInsert acc k v) tl

/-- ASCII model of String.prototype.toUpperCase. -/
def jsToUpperCase (s : String) : String := ⟨s.data.map Char.toUpper⟩

/-- ASCII model of String.prototype.toLowerCase. -/
def jsToLowerCase (s : String) : String := ⟨s.data.map Char.toLower⟩

/-- Model of input.split("").reverse().join(""). -/
def jsReverseString (s : String) : String := ⟨s.data.reverse⟩

namespace MyCustomPlugin

/-- The try block of MyCustomPlugin.execute: unpack args and options,
build the report string, apply the selected text transformation. -/
def tryExecute (request : ExecutionRequestBody) : Except JSError ExecutionResponse := do
  let args ← unpackEntries [] request.args
  let options ← unpackEntries [] request.options
  let r1 := "Input processed: \"" ++ request.input ++ "\"\n"
  let r2 := if 0 < args.length then
      "Arguments: " ++ jsonStringifyPretty (.obj args) ++ "\n" else ""
  let r3 := if 0 < options.length then
      "Options: " ++ jsonStringifyPretty (.obj options) ++ "\n" else ""
  let operation := match objGet options "operation" with
    | some v => if jsTruthy v then v else .str "uppercase"
    | none => .str "uppercase"
  let processedInput :=
    if jsStrictEqStr operation "uppercase" then jsToUpperCase request.input
    else if jsStrictEqStr operation "lowercase" then jsToLowerCase request.input
    else if jsStrictEqStr operation "reverse" then jsReverseString request.input
    else if jsStrictEqStr operation "length" then natToString request.input.data.length
    else request.input
  let result := r1 ++ r2 ++ r3 ++ ("Transformed output: \"" ++ processedInput ++ "\"")
  .ok ⟨result⟩

/-- Embedding of MyCustomPlugin.execute: the try block with its catch
producing an Error: response, so the promise always resolves. -/
def execute (request : ExecutionRequestBody) : ExecutionResponse :=
  match tryExecute request with
  | .ok response => response
  | .error e => ⟨"Error: " ++ jsErrorMessage e⟩

end MyCustomPlugin

/- ---------- lifecycle (PluginMain.start) ---------- -/

/-- The requested bind port computed by PluginMain.start:
process.env.PLUGIN_PORT ? parseInt(process.env.PLUGIN_PORT) : 0.
The environment value is an optional string; none in the result models
passing NaN on. -/
def requestedPort (env : Option String) : Option Int :=
  match env with
  | some s => if s = "" then some 0 else parseIntJS s
  | none => some 0

/-- What a registered signal handler does. -/
inductive HandlerBehavior where
  | stopThenExit (code : Nat)
deriving DecidableEq

/-- Result of running PluginMain.start: a running server with the stdout
lines printed so far and the registered signal handlers, or an immediate
process exit with a status code. -/
inductive MainOutcome where
  | running (stdout : List String) (handlers : List (String × HandlerBehavior))
  | exited (code : Nat)

/-- The stdout lines of an outcome. -/
def MainOutcome.stdout : MainOutcome → List String
  | .running lines _ => lines
  | .exited _ => []

/-- The registered signal handlers of an outcome. -/
def MainOutcome.handlers : MainOutcome → List (String × HandlerBehavior)
  | .running _ hs => hs
  | .exited _ => []

namespace PluginMain

/-- Embedding of PluginMain.start over a transport bind step (the
bindAsync callback of PluginServer.start, applied once to the requested
port).  On success the two console.log lines are printed and the SIGTERM
and SIGINT handlers are registered, each stopping the server and exiting
with status 0; on bind failure the process exits with status 1. -/
def start (env : Option String) (bind : Option Int → Except String Nat) :
    MainOutcome :=
  match bind (requestedPort env) with
  | .ok assignedPort =>
      .running
        ["Plugin server started on port " ++ natToString assignedPort,
         "PLUGIN_PORT=" ++ natToString assignedPort]
        [("SIGTERM", .stopThenExit 0), ("SIGINT", .stopThenExit 0)]
  | .error _ => .exited 1

end PluginMain

/- ================= proofs: decimal digit round trip ================= -/

theorem digitVal_digitChar : ∀ d < 10, digitVal (Nat.digitChar d) = d := by decide

theorem isDigitChar_digitChar : ∀ d < 10, isDigitChar (Nat.digitChar d) = true := by decide

theorem foldr_digitChar (L : List Nat) (h : ∀ d ∈ L, d < 10) :
    L.foldr (fun d acc => acc * 10 + digitVal (Nat.digitChar d)) 0 = Nat.ofDigits 10 L := by
  induction L with
  | nil => simp [Nat.ofDigits_nil]
  | cons d tl ih =>
      simp only [List.foldr_cons, Nat.ofDigits_cons]
      rw [ih (fun x hx => h x (List.mem_cons_of_mem _ hx)),
        digitVal_digitChar d (h d (List.mem_cons_self _ _))]
      ring

theorem foldDigits_natDigits (n : Nat) : foldDigits (natDigits n) = n := by
  by_cases h : n = 0
  · subst h; decide
  · unfold natDigits foldDigits
    rw [if_neg h, List.map_reverse, List.foldl_reverse, List.foldr_map]
    rw [foldr_digitChar _ (fun d hd => Nat.digits_lt_base (by norm_num) hd)]
    exact Nat.ofDigits_digits 10 n

theorem natDigits_all (n : Nat) : ∀ c ∈ natDigits n, isDigitChar c = true := by
  intro c hc
  unfold natDigits at hc
  by_cases h : n = 0
  · rw [if_pos h] at hc
    simp at hc
    subst hc
    decide
  · rw [if_neg h] at hc
    simp only [List.mem_map, List.mem_reverse] at hc
    obtain ⟨d, hd, rfl⟩ := hc
    exact isDigitChar_digitChar d (Nat.digits_lt_base (by norm_num) hd)

theorem natDigits_ne_nil (n : Nat) : natDigits n ≠ [] := by
  unfold natDigits
  by_cases h : n = 0
  · simp [h]
  · simp only [if_neg h, ne_eq, List.map_eq_nil_iff, List.reverse_eq_nil_iff]
    exact Nat.digits_ne_nil_iff_ne_zero.mpr h

theorem headIs_iff (c : Char) (l : List Char) : headIs c l = true ↔ l.head? = some c := by
  cases l <;> simp [headIs]

theorem natDigits_zero_of_headIs (n : Nat) (h : headIs '0' (natDigits n) = true) :
    n = 0 := by
  by_contra hn
  rw [headIs_iff] at h
  unfold natDigits at h
  rw [if_neg hn] at h
  have hne : Nat.digits 10 n ≠ [] := Nat.digits_ne_nil_iff_ne_zero.mpr hn
  rw [List.head?_map, List.head?_reverse, List.getLast?_eq_getLast _ hne] at h
  simp at h
  have hlt : (Nat.digits 10 n).getLast hne < 10 :=
    Nat.digits_lt_base (by norm_num) (List.getLast_mem hne)
  have hz : ∀ d < 10, Nat.digitChar d = '0' → d = 0 := by decide
  exact Nat.getLast_digit_ne_zero 10 hn (hz _ hlt h)

/-- Head of a list is a decimal digit. -/
def headDigit : List Char → Bool
  | [] => false
  | c :: _ => isDigitChar c

theorem takeDigits_append (ds rest : List Char) (h : ∀ c ∈ ds, isDigitChar c = true)
    (hr : headDigit rest = false) : takeDigits (ds ++ rest) = (ds, rest) := by
  induction ds with
  | nil =>
      simp only [List.nil_append]
      cases rest with
      | nil => rfl
      | cons c t =>
          simp only [headDigit] at hr
          simp [takeDigits, hr]
  | cons c t ih =>
      have hc := h c (List.mem_cons_self _ _)
      simp [takeDigits, hc, ih (fun x hx => h x (List.mem_cons_of_mem _ hx))]

theorem foldl_replicate_zero (k : Nat) :
    List.foldl (fun a c => a * 10 + digitVal c) 0 (List.replicate k '0') = 0 := by
  induction k with
  | zero => rfl
  | succ k ih =>
      have h0 : (0 : Nat) * 10 + digitVal '0' = 0 := rfl
      simp only [List.replicate_succ, List.foldl_cons, h0]
      exact ih

theorem foldDigits_replicate_append (k : Nat) (l : List Char) :
    foldDigits (List.replicate k '0' ++ l) = foldDigits l := by
  unfold foldDigits
  rw [List.foldl_append, foldl_replicate_zero]

theorem printFinAbs_anatomy (n e : Nat) :
    ∃ ip fp, printFinAbs n e = ip ++ (if e = 0 then [] else '.' :: fp) ∧
      ip ≠ [] ∧
      (∀ c ∈ ip, isDigitChar c = true) ∧
      (∀ c ∈ fp, isDigitChar c = true) ∧
      fp.length = e ∧
      foldDigits (ip ++ fp) = n ∧
      (e = 0 → fp = []) ∧
      ¬(2 ≤ ip.length ∧ headIs '0' ip = true) := by
  have hdlen : 1 ≤ (natDigits n).length :=
    List.length_pos.mpr (natDigits_ne_nil n)
  have hplen :
      (List.replicate (e + 1 - (natDigits n).length) '0' ++ natDigits n).length =
        max (e + 1) (natDigits n).length := by
    rw [List.length_append, List.length_replicate]
    omega
  have hpd : ∀ c ∈ List.replicate (e + 1 - (natDigits n).length) '0' ++ natDigits n,
      isDigitChar c = true := by
    intro c hc
    rcases List.mem_append.mp hc with h | h
    · rw [List.eq_of_mem_replicate h]; decide
    · exact natDigits_all n c h
  refine ⟨(List.replicate (e + 1 - (natDigits n).length) '0' ++ natDigits n).take
      ((List.replicate (e + 1 - (natDigits n).length) '0' ++ natDigits n).length - e),
    (List.replicate (e + 1 - (natDigits n).length) '0' ++ natDigits n).drop
      ((List.replicate (e + 1 - (natDigits n).length) '0' ++ natDigits n).length - e),
    rfl, ?_, ?_, ?_, ?_, ?_, ?_, ?_⟩
  · apply List.ne_nil_of_length_pos
    rw [List.length_take]
    omega
  · intro c hc
    exact hpd c (List.take_subset _ _ hc)
  · intro c hc
    exact hpd c (List.drop_subset _ _ hc)
  · rw [List.length_drop]
    omega
  · rw [List.take_append_drop, foldDigits_replicate_append, foldDigits_natDigits]
  · intro he
    subst he
    simp only [Nat.sub_zero]
    exact List.drop_length _
  · rintro ⟨h2, h0⟩
    by_cases hd : (natDigits n).length ≤ e + 1
    · rw [List.length_take, hplen] at h2
      omega
    · have hrep : e + 1 - (natDigits n).length = 0 := by omega
      have hpad : List.replicate (e + 1 - (natDigits n).length) '0' ++ natDigits n
          = natDigits n := by
        rw [hrep, List.replicate_zero, List.nil_append]
      rw [hpad] at h2 h0
      rw [List.length_take] at h2
      obtain ⟨c, t, hct⟩ : ∃ c t, natDigits n = c :: t := by
        cases hds : natDigits n with
        | nil => exact absurd hds (natDigits_ne_nil n)
        | cons c t => exact ⟨c, t, rfl⟩
      rw [hct] at h0 h2
      obtain ⟨k, hk⟩ : ∃ k, (c :: t).length - e = k + 1 := by
        rcases Nat.exists_eq_add_of_lt (show 0 < (c :: t).length - e by omega) with ⟨k, hk⟩
        exact ⟨k, by omega⟩
      rw [hk, List.take_succ_cons] at h0
      have h0' : headIs '0' (natDigits n) = true := by
        rw [hct]
        simpa [headIs] using h0
      have hn0 := natDigits_zero_of_headIs n h0'
      subst hn0
      have h1 : natDigits 0 = ['0'] := rfl
      rw [h1] at hd
      exact hd (by simp)

/-- The next character (if any) cannot extend a decimal number literal. -/
def numStop : List Char → Bool
  | [] => true
  | c :: _ => !(isDigitChar c || c = '.' || c = 'e' || c = 'E')

theorem numStop_facts {rest : List Char} (h : numStop rest = true) :
    headDigit rest = false ∧ headIs '.' rest = false ∧
      headIs 'e' rest = false ∧ headIs 'E' rest = false := by
  cases rest with
  | nil => exact ⟨rfl, rfl, rfl, rfl⟩
  | cons c t =>
      simp only [numStop, Bool.not_eq_true', Bool.or_eq_false_iff,
        decide_eq_false_iff_not] at h
      obtain ⟨⟨⟨h1, h2⟩, h3⟩, h4⟩ := h
      refine ⟨h1, ?_, ?_, ?_⟩ <;> simp [headIs, h2, h3, h4]

theorem isDigitChar_ne_of {c d : Char} (h : isDigitChar c = true)
    (hd : d.toNat < 48 ∨ 57 < d.toNat) : c ≠ d := by
  intro he
  subst he
  simp only [isDigitChar, decide_eq_true_eq] at h
  omega

theorem isDigitChar_not_ws {c : Char} (h : isDigitChar c = true) :
    isWsChar c = false := by
  simp only [isDigitChar, decide_eq_true_eq] at h
  simp only [isWsChar, decide_eq_false_iff_not]
  omega

theorem printFinAbs_head (n e : Nat) :
    ∃ c t, printFinAbs n e = c :: t ∧ isDigitChar c = true := by
  obtain ⟨ip, fp, hprint, hip_ne, hip_dig, _, _, _, _, _⟩ := printFinAbs_anatomy n e
  cases ip with
  | nil => exact absurd rfl hip_ne
  | cons c t =>
      exact ⟨c, t ++ (if e = 0 then [] else '.' :: fp), by rw [hprint]; simp,
        hip_dig c (List.mem_cons_self _ _)⟩

theorem parseJsonNumberCore_print (n e : Nat) (rest : List Char)
    (hrest : numStop rest = true) :
    parseJsonNumberCore (printFinAbs n e ++ rest) = some (.fin (n : Int) e, rest) := by
  obtain ⟨hD, hP, hE, hE2⟩ := numStop_facts hrest
  obtain ⟨ip, fp, hprint, hip_ne, hip_dig, hfp_dig, hfp_len, hfold, hfp0, hlead⟩ :=
    printFinAbs_anatomy n e
  by_cases he : e = 0
  · have hfp_nil := hfp0 he
    subst hfp_nil
    have hinput : printFinAbs n e ++ rest = ip ++ rest := by
      rw [hprint, if_pos he, List.append_nil]
    rw [hinput]
    unfold parseJsonNumberCore
    rw [takeDigits_append ip rest hip_dig hD]
    simp only [List.append_nil] at hfold
    simp [hip_ne, hlead, hP, hE, hE2, hfold, he]
  · have hfp_ne : fp ≠ [] := by
      intro hnil
      rw [hnil] at hfp_len
      exact he hfp_len.symm
    have hinput : printFinAbs n e ++ rest = ip ++ ('.' :: (fp ++ rest)) := by
      rw [hprint, if_neg he]
      simp
    rw [hinput]
    have hdot : headIs '.' ('.' :: (fp ++ rest)) = true := rfl
    have hdotdig : headDigit ('.' :: (fp ++ rest)) = false := rfl
    simp only [parseJsonNumberCore,
      takeDigits_append ip ('.' :: (fp ++ rest)) hip_dig hdotdig,
      List.tail_cons,
      takeDigits_append fp rest hfp_dig hD]
    simp [hip_ne, hlead, hdot, hfp_ne, hE, hE2, hfold, hfp_len]

theorem skipWs_cons {c : Char} (l : List Char) (h : isWsChar c = false) :
    skipWs (c :: l) = c :: l := by
  simp [skipWs, h]

theorem parseJsonNumber_print (m : Int) (e : Nat) (rest : List Char)
    (hrest : numStop rest = true) :
    parseJsonNumber (printFin m e ++ rest) = some (.fin m e, rest) := by
  by_cases hm : m < 0
  · have hinput : printFin m e ++ rest = '-' :: (printFinAbs m.natAbs e ++ rest) := by
      simp [printFin, hm]
    rw [hinput]
    simp only [parseJsonNumber, if_pos rfl]
    rw [parseJsonNumberCore_print m.natAbs e rest hrest]
    have hcast : |m| = -m := abs_of_neg hm
    simp [hcast]
  · obtain ⟨c, t, hct, hdig⟩ := printFinAbs_head m.natAbs e
    have hinput : printFin m e ++ rest = c :: (t ++ rest) := by
      simp [printFin, hm, hct]
    rw [hinput]
    have hne : c ≠ '-' := isDigitChar_ne_of hdig (by decide)
    simp only [parseJsonNumber, if_neg hne]
    have hback : c :: (t ++ rest) = printFinAbs m.natAbs e ++ rest := by
      rw [hct]
      simp
    rw [hback, parseJsonNumberCore_print m.natAbs e rest hrest]
    have hcast : |m| = m := abs_of_nonneg (le_of_not_lt hm)
    simp [hcast]

theorem parseFloatExp_nil (m : Int) (e : Nat) : parseFloatExp m e [] = .fin m e := rfl


theorem parseFloatJS_print (m : Int) (e : Nat) :
    parseFloatJS (jsNumToString (JSNumber.fin m e)) = .fin m e := by
  obtain ⟨ip, fp, hprint, hip_ne, hip_dig, hfp_dig, hfp_len, hfold, hfp0, hlead⟩ :=
    printFinAbs_anatomy m.natAbs e
  obtain ⟨c, t, hct, hcdig⟩ := printFinAbs_head m.natAbs e
  have htakefp : takeDigits fp = (fp, []) := by
    have := takeDigits_append fp [] hfp_dig rfl
    rwa [List.append_nil] at this
  have htakeip : takeDigits ip = (ip, []) := by
    have := takeDigits_append ip [] hip_dig rfl
    rwa [List.append_nil] at this
  have hdotfalse : headIs '.' ([] : List Char) = false := rfl
  have hdotip : headIs '.' ('.' :: fp) = true := rfl
  by_cases hm : m < 0
  all_goals by_cases he : e = 0
  · -- m < 0, e = 0
    have hfpnil := hfp0 he
    subst hfpnil
    have habs : printFinAbs m.natAbs e = ip := by
      rw [hprint, if_pos he, List.append_nil]
    have hdata : (jsNumToString (JSNumber.fin m e)).data = '-' :: ip := by
      simp [jsNumToString, printNum, printFin, hm, habs]
    have hskip : skipWs ('-' :: ip) = '-' :: ip := skipWs_cons _ rfl
    have hminus : headIs '-' ('-' :: ip) = true := rfl
    simp only [List.append_nil] at hfold
    simp only [parseFloatJS, hdata, hskip, hminus, true_or, if_true,
      List.tail_cons, htakeip, hdotfalse, Bool.false_eq_true, if_false]
    have hcast : |m| = -m := abs_of_neg hm
    simp [hip_ne, parseFloatExp_nil, hfold, he, hcast]
  · -- m < 0, e ≠ 0
    have habs : printFinAbs m.natAbs e = ip ++ '.' :: fp := by
      rw [hprint, if_neg he]
    have htake : takeDigits (ip ++ '.' :: fp) = (ip, '.' :: fp) :=
      takeDigits_append _ _ hip_dig rfl
    have hdata : (jsNumToString (JSNumber.fin m e)).data = '-' :: (ip ++ '.' :: fp) := by
      simp [jsNumToString, printNum, printFin, hm, habs]
    have hskip : skipWs ('-' :: (ip ++ '.' :: fp)) = '-' :: (ip ++ '.' :: fp) :=
      skipWs_cons _ rfl
    have hminus : headIs '-' ('-' :: (ip ++ '.' :: fp)) = true := rfl
    simp only [parseFloatJS, hdata, hskip, hminus, true_or, if_true,
      List.tail_cons, htake, hdotip, if_true, htakefp]
    have hcast : |m| = -m := abs_of_neg hm
    simp [hip_ne, parseFloatExp_nil, hfold, hfp_len, hcast]
  · -- m ≥ 0, e = 0
    have hfpnil := hfp0 he
    subst hfpnil
    have habs : printFinAbs m.natAbs e = ip := by
      rw [hprint, if_pos he, List.append_nil]
    have hdata : (jsNumToString (JSNumber.fin m e)).data = ip := by
      simp [jsNumToString, printNum, printFin, hm, habs]
    have hskip : skipWs ip = ip := by
      rw [← habs, hct]
      exact skipWs_cons _ (isDigitChar_not_ws hcdig)
    have hminus : headIs '-' ip = false := by
      rw [← habs, hct]
      simp [headIs, isDigitChar_ne_of hcdig (show ('-' : Char).toNat < 48 ∨ _ by left; decide)]
    have hplus : headIs '+' ip = false := by
      rw [← habs, hct]
      simp [headIs, isDigitChar_ne_of hcdig (show ('+' : Char).toNat < 48 ∨ _ by left; decide)]
    simp only [List.append_nil] at hfold
    simp only [parseFloatJS, hdata, hskip, hminus, hplus, Bool.false_eq_true,
      false_or, if_false, htakeip, hdotfalse]
    have hcast : |m| = m := abs_of_nonneg (le_of_not_lt hm)
    simp [hip_ne, parseFloatExp_nil, hfold, he, hcast]
  · -- m ≥ 0, e ≠ 0
    have habs : printFinAbs m.natAbs e = ip ++ '.' :: fp := by
      rw [hprint, if_neg he]
    have htake : takeDigits (ip ++ '.' :: fp) = (ip, '.' :: fp) :=
      takeDigits_append _ _ hip_dig rfl
    have hdata : (jsNumToString (JSNumber.fin m e)).data = ip ++ '.' :: fp := by
      simp [jsNumToString, printNum, printFin, hm, habs]
    have hskip : skipWs (ip ++ '.' :: fp) = ip ++ '.' :: fp := by
      rw [← habs, hct]
      exact skipWs_cons _ (isDigitChar_not_ws hcdig)
    have hminus : headIs '-' (ip ++ '.' :: fp) = false := by
      rw [← habs, hct]
      simp [headIs, isDigitChar_ne_of hcdig (show ('-' : Char).toNat < 48 ∨ _ by left; decide)]
    have hplus : headIs '+' (ip ++ '.' :: fp) = false := by
      rw [← habs, hct]
      simp [headIs, isDigitChar_ne_of hcdig (show ('+' : Char).toNat < 48 ∨ _ by left; decide)]
    simp only [parseFloatJS, hdata, hskip, hminus, hplus, Bool.false_eq_true,
      false_or, if_false, htake, hdotip, if_true, htakefp]
    have hcast : |m| = m := abs_of_nonneg (le_of_not_lt hm)
    simp [hip_ne, parseFloatExp_nil, hfold, hfp_len, hcast, htakefp]

theorem hexVal_digitChar : ∀ d < 16, hexVal (Nat.digitChar d) = some d := by decide

theorem parseStringBody_escape (s rest : List Char) :
    parseStringBody (escapeChars s ++ '"' :: rest) = some (s, rest) := by
  induction s with
  | nil =>
      simp only [escapeChars, List.nil_append]
      rw [parseStringBody.eq_def]
      simp
  | cons c t ih =>
      by_cases h1 : c = '"'
      · subst h1
        have hesc : escChar '"' = ['\\', '"'] := rfl
        simp only [escapeChars, hesc, List.cons_append, List.nil_append]
        rw [parseStringBody.eq_def]
        simp [ih]
      · by_cases h2 : c = '\\'
        · subst h2
          have hesc : escChar '\\' = ['\\', '\\'] := rfl
          simp only [escapeChars, hesc, List.cons_append, List.nil_append]
          rw [parseStringBody.eq_def]
          simp [ih]
        · by_cases h3 : c = '\x08'
          · subst h3
            have hesc : escChar '\x08' = ['\\', 'b'] := rfl
            simp only [escapeChars, hesc, List.cons_append, List.nil_append]
            rw [parseStringBody.eq_def]
            simp [ih]
          · by_cases h4 : c = '\t'
            · subst h4
              have hesc : escChar '\t' = ['\\', 't'] := rfl
              simp only [escapeChars, hesc, List.cons_append, List.nil_append]
              rw [parseStringBody.eq_def]
              simp [ih]
            · by_cases h5 : c = '\n'
              · subst h5
                have hesc : escChar '\n' = ['\\', 'n'] := rfl
                simp only [escapeChars, hesc, List.cons_append, List.nil_append]
                rw [parseStringBody.eq_def]
                simp [ih]
              · by_cases h6 : c = '\x0c'
                · subst h6
                  have hesc : escChar '\x0c' = ['\\', 'f'] := rfl
                  simp only [escapeChars, hesc, List.cons_append, List.nil_append]
                  rw [parseStringBody.eq_def]
                  simp [ih]
                · by_cases h7 : c = '\x0d'
                  · subst h7
                    have hesc : escChar '\x0d' = ['\\', 'r'] := rfl
                    simp only [escapeChars, hesc, List.cons_append, List.nil_append]
                    rw [parseStringBody.eq_def]
                    simp [ih]
                  · by_cases h8 : c.toNat < 32
                    · have hq : c.toNat / 16 < 16 := by omega
                      have hr : c.toNat % 16 < 16 := by omega
                      have hesc : escChar c = ['\\', 'u', '0', '0',
                          Nat.digitChar (c.toNat / 16), Nat.digitChar (c.toNat % 16)] := by
                        simp [escChar, h1, h2, h3, h4, h5, h6, h7, h8]
                      have h00 : hexVal '0' = some 0 := rfl
                      simp only [escapeChars, hesc, List.cons_append, List.nil_append]
                      rw [parseStringBody.eq_def]
                      simp [h00, hexVal_digitChar _ hq, hexVal_digitChar _ hr, ih]
                      have hc' : c.toNat / 16 * 16 + c.toNat % 16 = c.toNat := by omega
                      simp [hc', Char.ofNat_toNat]
                    · have hesc : escChar c = [c] := by
                        simp [escChar, h1, h2, h3, h4, h5, h6, h7, h8]
                      simp only [escapeChars, hesc, List.cons_append, List.nil_append]
                      rw [parseStringBody.eq_def]
                      simp [h1, h2, h8, ih]

theorem jsize_pos : ∀ v : JSValue, 1 ≤ jsize v
  | .null => le_refl _
  | .bool _ => le_refl _
  | .num _ => le_refl _
  | .str _ => le_refl _
  | .arr vs => by rw [jsize]; omega
  | .obj fs => by rw [jsize]; omega

/-- The remainder allowed after a printed JSON value: end of input or a
separator. -/
def restStop : List Char → Bool
  | [] => true
  | c :: _ => c = ',' ∨ c = ']' ∨ c = '\x7d'

theorem restStop_numStop {l : List Char} (h : restStop l = true) : numStop l = true := by
  cases l with
  | nil => rfl
  | cons c t =>
      rcases (by simpa [restStop] using h : c = ',' ∨ c = ']' ∨ c = '\x7d') with rfl | rfl | rfl
        <;> rfl

theorem printVal_head_start (v : JSValue) :
    ∃ c t, printVal v = c :: t ∧ isWsChar c = false ∧ c ≠ ']' ∧ c ≠ '\x7d' := by
  cases v with
  | null => exact ⟨'n', _, rfl, rfl, by decide, by decide⟩
  | bool b =>
      cases b with
      | true => exact ⟨'t', _, rfl, rfl, by decide, by decide⟩
      | false => exact ⟨'f', _, rfl, rfl, by decide, by decide⟩
  | num n =>
      cases n with
      | nan => exact ⟨'n', _, rfl, rfl, by decide, by decide⟩
      | fin m e =>
          by_cases hm : m < 0
          · refine ⟨'-', printFinAbs m.natAbs e, ?_, rfl, by decide, by decide⟩
            simp [printVal, printFin, hm]
          · obtain ⟨c, t, hct, hdig⟩ := printFinAbs_head m.natAbs e
            refine ⟨c, t, ?_, isDigitChar_not_ws hdig, ?_, ?_⟩
            · simp [printVal, printFin, hm, hct]
            · exact isDigitChar_ne_of hdig
                (by decide : (']' : Char).toNat < 48 ∨ 57 < (']' : Char).toNat)
            · exact isDigitChar_ne_of hdig
                (by decide : ('\x7d' : Char).toNat < 48 ∨ 57 < ('\x7d' : Char).toNat)
  | str s => exact ⟨'"', _, rfl, rfl, by decide, by decide⟩
  | arr vs =>
      cases vs with
      | nil => exact ⟨'[', _, rfl, rfl, by decide, by decide⟩
      | cons v vs => exact ⟨'[', _, rfl, rfl, by decide, by decide⟩
  | obj fs =>
      cases fs with
      | nil => exact ⟨'\x7b', _, rfl, rfl, by decide, by decide⟩
      | cons f fs => exact ⟨'\x7b', _, rfl, rfl, by decide, by decide⟩

theorem skipWs_printVal (v : JSValue) (rest : List Char) :
    skipWs (printVal v ++ rest) = printVal v ++ rest := by
  obtain ⟨c, t, hct, hws, _, _⟩ := printVal_head_start v
  rw [hct, List.cons_append]
  exact skipWs_cons _ hws

theorem printElemsCore_single (v : JSValue) : printElemsCore [v] = printVal v := rfl

theorem printElemsCore_cons₂ (v w : JSValue) (ws : List JSValue) :
    printElemsCore (v :: w :: ws) = printVal v ++ ',' :: printElemsCore (w :: ws) := rfl

theorem printFieldsCore_single (k : String) (v : JSValue) :
    printFieldsCore [(k, v)] = '"' :: escapeChars k.data ++ '"' :: ':' :: printVal v := rfl

theorem printFieldsCore_cons₂ (k : String) (v : JSValue) (f : String × JSValue)
    (fs : List (String × JSValue)) :
    printFieldsCore ((k, v) :: f :: fs) =
      ('"' :: escapeChars k.data ++ '"' :: ':' :: printVal v) ++
        ',' :: printFieldsCore (f :: fs) := rfl

theorem headIs_cons_ne {c x : Char} (l : List Char) (h : ¬(c = x)) :
    headIs x (c :: l) = false := by
  simp [headIs, h]

theorem isPrefixOf_cons_ne {a c : Char} (w l : List Char) (h : ¬(a = c)) :
    (a :: w).isPrefixOf (c :: l) = false := by
  simp [List.isPrefixOf, h]

theorem printFin_head (m : Int) (e : Nat) :
    ∃ c t, printFin m e = c :: t ∧ (c = '-' ∨ isDigitChar c = true) := by
  by_cases hm : m < 0
  · exact ⟨'-', printFinAbs m.natAbs e, by simp [printFin, hm], Or.inl rfl⟩
  · obtain ⟨c, t, hct, hdig⟩ := printFinAbs_head m.natAbs e
    exact ⟨c, t, by simp [printFin, hm, hct], Or.inr hdig⟩

theorem numHead_facts {c : Char} (h : c = '-' ∨ isDigitChar c = true) :
    isWsChar c = false ∧ ¬('n' = c) ∧ ¬('t' = c) ∧ ¬('f' = c) ∧
      ¬(c = '"') ∧ ¬(c = '\x7b') ∧ ¬(c = '[') := by
  rcases h with rfl | hd
  · exact ⟨rfl, by decide, by decide, by decide, by decide, by decide, by decide⟩
  · refine ⟨isDigitChar_not_ws hd, ?_, ?_, ?_, ?_, ?_, ?_⟩
    · exact fun hh => isDigitChar_ne_of hd
        (by decide : ('n' : Char).toNat < 48 ∨ 57 < ('n' : Char).toNat) hh.symm
    · exact fun hh => isDigitChar_ne_of hd
        (by decide : ('t' : Char).toNat < 48 ∨ 57 < ('t' : Char).toNat) hh.symm
    · exact fun hh => isDigitChar_ne_of hd
        (by decide : ('f' : Char).toNat < 48 ∨ 57 < ('f' : Char).toNat) hh.symm
    · exact isDigitChar_ne_of hd
        (by decide : ('"' : Char).toNat < 48 ∨ 57 < ('"' : Char).toNat)
    · exact isDigitChar_ne_of hd
        (by decide : ('\x7b' : Char).toNat < 48 ∨ 57 < ('\x7b' : Char).toNat)
    · exact isDigitChar_ne_of hd
        (by decide : ('[' : Char).toNat < 48 ∨ 57 < ('[' : Char).toNat)

theorem printElemsCore_head (v : JSValue) (vs : List JSValue) :
    ∃ c t, printElemsCore (v :: vs) = c :: t ∧ isWsChar c = false ∧
      c ≠ ']' ∧ c ≠ '\x7d' := by
  obtain ⟨c, t, hct, hws, hbr, hbr2⟩ := printVal_head_start v
  cases vs with
  | nil => exact ⟨c, t, by rw [printElemsCore_single, hct], hws, hbr, hbr2⟩
  | cons w ws =>
      exact ⟨c, t ++ ',' :: printElemsCore (w :: ws),
        by rw [printElemsCore_cons₂, hct, List.cons_append], hws, hbr, hbr2⟩

theorem printFieldsCore_head (k : String) (v : JSValue) (fs : List (String × JSValue)) :
    ∃ t, printFieldsCore ((k, v) :: fs) = '"' :: t := by
  cases fs with
  | nil =>
      exact ⟨escapeChars k.data ++ '"' :: ':' :: printVal v, printFieldsCore_single k v⟩
  | cons f fs =>
      refine ⟨(escapeChars k.data ++ '"' :: ':' :: printVal v) ++
        ',' :: printFieldsCore (f :: fs), ?_⟩
      rw [printFieldsCore_cons₂, List.cons_append]
      simp

/-- The JSON parser inverts the JSON printer: at every sufficient fuel, a
printed value followed by a separator-or-end remainder parses back to
exactly that value, and likewise for the printed element and member lists
of arrays and objects. -/
theorem parse_print_all : ∀ f : Nat,
    (∀ v rest, jsize v ≤ f → serializable v = true → restStop rest = true →
      parseVal f (printVal v ++ rest) = some (v, rest)) ∧
    (∀ vs rest, vs ≠ [] → jsizeElems vs ≤ f → serializableElems vs = true →
      restStop rest = true →
      parseElems f (printElemsCore vs ++ ']' :: rest) = some (vs, rest)) ∧
    (∀ fs rest, fs ≠ [] → jsizeFields fs ≤ f → serializableFields fs = true →
      restStop rest = true →
      parseMembers f (printFieldsCore fs ++ '\x7d' :: rest) = some (fs, rest)) := by
  intro f
  induction f using Nat.strong_induction_on with
  | _ f IH =>
  cases f with
  | zero =>
      refine ⟨?_, ?_, ?_⟩
      · intro v rest hj _ _
        exact absurd hj (by have := jsize_pos v; omega)
      · intro vs rest hne hj _ _
        cases vs with
        | nil => exact absurd rfl hne
        | cons v vs =>
            simp [jsizeElems] at hj
      · intro fs rest hne hj _ _
        cases fs with
        | nil => exact absurd rfl hne
        | cons f fs =>
            obtain ⟨k, v⟩ := f
            simp [jsizeFields] at hj
  | succ g =>
      obtain ⟨IHA, IHB, IHC⟩ := IH g (Nat.lt_succ_self g)
      refine ⟨?_, ?_, ?_⟩
      · -- values
        intro v rest hj hser hrest
        cases v with
        | null =>
            have hp : printVal JSValue.null = ['n', 'u', 'l', 'l'] := rfl
            rw [hp, parseVal.eq_def]
            simp [skipWs, isWsChar, List.isPrefixOf]
        | bool b =>
            cases b with
            | true =>
                have hp : printVal (JSValue.bool true) = ['t', 'r', 'u', 'e'] := rfl
                rw [hp, parseVal.eq_def]
                simp [skipWs, isWsChar, List.isPrefixOf]
            | false =>
                have hp : printVal (JSValue.bool false) = ['f', 'a', 'l', 's', 'e'] := rfl
                rw [hp, parseVal.eq_def]
                simp [skipWs, isWsChar, List.isPrefixOf]
        | num n =>
            cases n with
            | nan => simp [serializable] at hser
            | fin m e =>
                have hp : printVal (JSValue.num (.fin m e)) = printFin m e := rfl
                obtain ⟨c, t, hct, hcd⟩ := printFin_head m e
                obtain ⟨hws, hn, ht', hf, hq, hb, hk⟩ := numHead_facts hcd
                rw [hp, hct, List.cons_append, parseVal.eq_def]
                simp only [skipWs_cons _ hws, isPrefixOf_cons_ne _ _ hn,
                  isPrefixOf_cons_ne _ _ ht', isPrefixOf_cons_ne _ _ hf,
                  headIs_cons_ne _ hq, headIs_cons_ne _ hb, headIs_cons_ne _ hk,
                  Bool.false_eq_true, if_false]
                rw [← List.cons_append, ← hct,
                  parseJsonNumber_print m e rest (restStop_numStop hrest)]
                rfl
        | str s =>
            have hp : printVal (JSValue.str s) ++ rest =
                '"' :: (escapeChars s.data ++ '"' :: rest) := by
              simp [printVal]
            rw [hp, parseVal.eq_def]
            simp [List.isPrefixOf, headIs, skipWs, isWsChar, parseStringBody_escape]
        | arr vs =>
            cases vs with
            | nil =>
                have hp : printVal (JSValue.arr []) ++ rest = '[' :: ']' :: rest := by
                  simp [printVal]
                rw [hp, parseVal.eq_def]
                simp [List.isPrefixOf, headIs, skipWs, isWsChar]
            | cons v vs =>
                have hp : printVal (JSValue.arr (v :: vs)) ++ rest =
                    '[' :: (printElemsCore (v :: vs) ++ ']' :: rest) := by
                  simp [printVal]
                obtain ⟨c, t, hct, hws, hbr, hbr2⟩ := printElemsCore_head v vs
                have hjE : jsizeElems (v :: vs) ≤ g := by
                  rw [jsize] at hj
                  omega
                have hserE : serializableElems (v :: vs) = true := by
                  rw [serializable] at hser
                  exact hser
                rw [hp, hct, List.cons_append, parseVal.eq_def]
                have hskip0 : skipWs ('[' :: (c :: (t ++ ']' :: rest))) =
                    '[' :: (c :: (t ++ ']' :: rest)) := skipWs_cons _ rfl
                have hskip1 : skipWs (c :: (t ++ ']' :: rest)) =
                    c :: (t ++ ']' :: rest) := skipWs_cons _ hws
                have hopen : headIs '[' ('[' :: (c :: (t ++ ']' :: rest))) = true := rfl
                simp only [hskip0, List.tail_cons, hskip1, hopen,
                  isPrefixOf_cons_ne _ _ (by decide : ¬('n' = '[')),
                  isPrefixOf_cons_ne _ _ (by decide : ¬('t' = '[')),
                  isPrefixOf_cons_ne _ _ (by decide : ¬('f' = '[')),
                  headIs_cons_ne _ (by decide : ¬('[' = '"')),
                  headIs_cons_ne _ (by decide : ¬('[' = '\x7b')),
                  headIs_cons_ne _ hbr,
                  Bool.false_eq_true, if_false, if_true]
                rw [← List.cons_append, ← hct,
                  IHB (v :: vs) rest (by simp) hjE hserE hrest]
                rfl
        | obj fs =>
            cases fs with
            | nil =>
                have hp : printVal (JSValue.obj []) ++ rest = '\x7b' :: '\x7d' :: rest := by
                  simp [printVal]
                rw [hp, parseVal.eq_def]
                simp [List.isPrefixOf, headIs, skipWs, isWsChar]
            | cons f fs =>
                obtain ⟨k, v⟩ := f
                have hp : printVal (JSValue.obj ((k, v) :: fs)) ++ rest =
                    '\x7b' :: (printFieldsCore ((k, v) :: fs) ++ '\x7d' :: rest) := by
                  simp [printVal]
                obtain ⟨t, hct⟩ := printFieldsCore_head k v fs
                have hjF : jsizeFields ((k, v) :: fs) ≤ g := by
                  rw [jsize] at hj
                  omega
                have hserF : serializableFields ((k, v) :: fs) = true := by
                  rw [serializable] at hser
                  exact hser
                rw [hp, hct, List.cons_append, parseVal.eq_def]
                have hskip0 : skipWs ('\x7b' :: ('"' :: (t ++ '\x7d' :: rest))) =
                    '\x7b' :: ('"' :: (t ++ '\x7d' :: rest)) := skipWs_cons _ rfl
                have hskip1 : skipWs ('"' :: (t ++ '\x7d' :: rest)) =
                    '"' :: (t ++ '\x7d' :: rest) := skipWs_cons _ rfl
                have hopen : headIs '\x7b' ('\x7b' :: ('"' :: (t ++ '\x7d' :: rest))) =
                    true := rfl
                simp only [hskip0, List.tail_cons, hskip1, hopen,
                  isPrefixOf_cons_ne _ _ (by decide : ¬('n' = '\x7b')),
                  isPrefixOf_cons_ne _ _ (by decide : ¬('t' = '\x7b')),
                  isPrefixOf_cons_ne _ _ (by decide : ¬('f' = '\x7b')),
                  headIs_cons_ne _ (by decide : ¬('\x7b' = '"')),
                  headIs_cons_ne _ (by decide : ¬('"' = '\x7d')),
                  Bool.false_eq_true, if_false, if_true]
                rw [← List.cons_append, ← hct,
                  IHC ((k, v) :: fs) rest (by simp) hjF hserF hrest]
                rfl
      · -- array element lists
        intro vs rest hne hj hser hrest
        cases vs with
        | nil => exact absurd rfl hne
        | cons v vs =>
            cases vs with
            | nil =>
                have hjv : jsize v ≤ g := by
                  simp [jsizeElems] at hj
                  omega
                have hsv : serializable v = true := by
                  simp [serializableElems] at hser
                  exact hser
                have hskip : skipWs (']' :: rest) = ']' :: rest := skipWs_cons _ rfl
                have h1 : headIs ',' (']' :: rest) = false := rfl
                have h2 : headIs ']' (']' :: rest) = true := rfl
                rw [printElemsCore_single, parseElems.eq_def]
                simp only [IHA v (']' :: rest) hjv hsv rfl, hskip, h1, h2,
                  Bool.false_eq_true, if_false, if_true, List.tail_cons]
            | cons w ws =>
                have hjv : jsize v ≤ g := by
                  simp [jsizeElems] at hj
                  omega
                have hjE : jsizeElems (w :: ws) ≤ g := by
                  simp [jsizeElems] at hj ⊢
                  omega
                have hsv : serializable v = true := by
                  simp [serializableElems] at hser
                  exact hser.1
                have hsE : serializableElems (w :: ws) = true := by
                  simp [serializableElems] at hser ⊢
                  exact hser.2
                have hass : printElemsCore (v :: w :: ws) ++ ']' :: rest =
                    printVal v ++ (',' :: (printElemsCore (w :: ws) ++ ']' :: rest)) := by
                  rw [printElemsCore_cons₂]
                  simp
                have hskip : skipWs (',' :: (printElemsCore (w :: ws) ++ ']' :: rest)) =
                    ',' :: (printElemsCore (w :: ws) ++ ']' :: rest) := skipWs_cons _ rfl
                have h1 : headIs ',' (',' :: (printElemsCore (w :: ws) ++ ']' :: rest)) =
                    true := rfl
                rw [hass, parseElems.eq_def]
                simp only [IHA v (',' :: (printElemsCore (w :: ws) ++ ']' :: rest))
                    hjv hsv rfl,
                  hskip, h1, if_true, List.tail_cons,
                  IHB (w :: ws) rest (by simp) hjE hsE hrest]
                rfl
      · -- object member lists
        intro fs rest hne hj hser hrest
        cases fs with
        | nil => exact absurd rfl hne
        | cons f fs =>
            obtain ⟨k, v⟩ := f
            cases fs with
            | nil =>
                have hjv : jsize v ≤ g := by
                  simp [jsizeFields] at hj
                  omega
                have hsv : serializable v = true := by
                  simp [serializableFields] at hser
                  exact hser
                have hass : printFieldsCore [(k, v)] ++ '\x7d' :: rest =
                    '"' :: (escapeChars k.data ++ '"' ::
                      (':' :: (printVal v ++ '\x7d' :: rest))) := by
                  rw [printFieldsCore_single]
                  simp
                have hq : headIs '"' ('"' :: (escapeChars k.data ++ '"' ::
                    (':' :: (printVal v ++ '\x7d' :: rest)))) = true := rfl
                have hskip : skipWs (':' :: (printVal v ++ '\x7d' :: rest)) =
                    ':' :: (printVal v ++ '\x7d' :: rest) := skipWs_cons _ rfl
                have hcolon : headIs ':' (':' :: (printVal v ++ '\x7d' :: rest)) =
                    true := rfl
                have hskip2 : skipWs ('\x7d' :: rest) = '\x7d' :: rest := skipWs_cons _ rfl
                have hc1 : headIs ',' ('\x7d' :: rest) = false := rfl
                have hc2 : headIs '\x7d' ('\x7d' :: rest) = true := rfl
                rw [hass, parseMembers.eq_def]
                simp only [hq, if_true, List.tail_cons,
                  parseStringBody_escape k.data (':' :: (printVal v ++ '\x7d' :: rest)),
                  hskip, hcolon,
                  IHA v ('\x7d' :: rest) hjv hsv rfl,
                  hskip2, hc1, hc2, Bool.false_eq_true, if_false]
            | cons f2 fs =>
                obtain ⟨kf, vf⟩ := f2
                have hjv : jsize v ≤ g := by
                  simp [jsizeFields] at hj
                  omega
                have hjF : jsizeFields ((kf, vf) :: fs) ≤ g := by
                  simp [jsizeFields] at hj ⊢
                  omega
                have hsv : serializable v = true := by
                  simp [serializableFields] at hser
                  exact hser.1
                have hsF : serializableFields ((kf, vf) :: fs) = true := by
                  simp [serializableFields] at hser ⊢
                  exact hser.2
                obtain ⟨tf, htf⟩ := printFieldsCore_head kf vf fs
                have hass : printFieldsCore ((k, v) :: (kf, vf) :: fs) ++ '\x7d' :: rest =
                    '"' :: (escapeChars k.data ++ '"' :: (':' :: (printVal v ++
                      ',' :: (printFieldsCore ((kf, vf) :: fs) ++ '\x7d' :: rest)))) := by
                  rw [printFieldsCore_cons₂]
                  simp
                have hq : headIs '"' ('"' :: (escapeChars k.data ++ '"' ::
                    (':' :: (printVal v ++
                      ',' :: (printFieldsCore ((kf, vf) :: fs) ++ '\x7d' :: rest))))) =
                    true := rfl
                have hskip : skipWs (':' :: (printVal v ++
                    ',' :: (printFieldsCore ((kf, vf) :: fs) ++ '\x7d' :: rest))) =
                    ':' :: (printVal v ++
                      ',' :: (printFieldsCore ((kf, vf) :: fs) ++ '\x7d' :: rest)) :=
                  skipWs_cons _ rfl
                have hcolon : headIs ':' (':' :: (printVal v ++
                    ',' :: (printFieldsCore ((kf, vf) :: fs) ++ '\x7d' :: rest))) =
                    true := rfl
                have hskip2 : skipWs (',' ::
                    (printFieldsCore ((kf, vf) :: fs) ++ '\x7d' :: rest)) =
                    ',' :: (printFieldsCore ((kf, vf) :: fs) ++ '\x7d' :: rest) :=
                  skipWs_cons _ rfl
                have hc1 : headIs ',' (',' ::
                    (printFieldsCore ((kf, vf) :: fs) ++ '\x7d' :: rest)) = true := rfl
                have hskip3 : skipWs (printFieldsCore ((kf, vf) :: fs) ++ '\x7d' :: rest) =
                    printFieldsCore ((kf, vf) :: fs) ++ '\x7d' :: rest := by
                  rw [htf, List.cons_append]
                  exact skipWs_cons _ rfl
                rw [hass, parseMembers.eq_def]
                simp only [hq, if_true, List.tail_cons,
                  parseStringBody_escape k.data (':' :: (printVal v ++
                    ',' :: (printFieldsCore ((kf, vf) :: fs) ++ '\x7d' :: rest))),
                  hskip, hcolon,
                  IHA v (',' :: (printFieldsCore ((kf, vf) :: fs) ++ '\x7d' :: rest))
                    hjv hsv rfl,
                  hskip2, hc1, hskip3,
                  IHC ((kf, vf) :: fs) rest (by simp) hjF hsF hrest]
                rfl

theorem jsize_le_len : ∀ n : Nat,
    (∀ v, jsize v ≤ n → jsize v ≤ (printVal v).length) ∧
    (∀ vs, vs ≠ [] → jsizeElems vs ≤ n →
      jsizeElems vs ≤ (printElemsCore vs).length + 1) ∧
    (∀ fs, fs ≠ [] → jsizeFields fs ≤ n →
      jsizeFields fs ≤ (printFieldsCore fs).length + 1) := by
  intro n
  induction n using Nat.strong_induction_on with
  | _ n IH =>
  cases n with
  | zero =>
      refine ⟨?_, ?_, ?_⟩
      · intro v hj
        exact absurd hj (by have := jsize_pos v; omega)
      · intro vs hne hj
        cases vs with
        | nil => exact absurd rfl hne
        | cons v vs => simp [jsizeElems] at hj
      · intro fs hne hj
        cases fs with
        | nil => exact absurd rfl hne
        | cons f fs =>
            obtain ⟨k, v⟩ := f
            simp [jsizeFields] at hj
  | succ g =>
      obtain ⟨IHA, IHB, IHC⟩ := IH g (Nat.lt_succ_self g)
      refine ⟨?_, ?_, ?_⟩
      · intro v hj
        cases v with
        | null => simp [jsize, printVal]
        | bool b => cases b <;> simp [jsize, printVal]
        | num n =>
            cases n with
            | nan => simp [jsize, printVal]
            | fin m e =>
                obtain ⟨c, t, hct, _⟩ := printFin_head m e
                have : printVal (JSValue.num (.fin m e)) = c :: t := hct
                rw [jsize, this]
                simp
        | str s => simp [jsize, printVal]
        | arr vs =>
            cases vs with
            | nil => simp [jsize, jsizeElems, printVal]
            | cons v vs =>
                have hE : jsizeElems (v :: vs) ≤ g := by
                  rw [jsize] at hj
                  omega
                have := IHB (v :: vs) (by simp) hE
                rw [jsize]
                have hlen : (printVal (JSValue.arr (v :: vs))).length =
                    (printElemsCore (v :: vs)).length + 2 := by
                  simp [printVal]
                omega
        | obj fs =>
            cases fs with
            | nil => simp [jsize, jsizeFields, printVal]
            | cons f fs =>
                obtain ⟨k, v⟩ := f
                have hF : jsizeFields ((k, v) :: fs) ≤ g := by
                  rw [jsize] at hj
                  omega
                have := IHC ((k, v) :: fs) (by simp) hF
                rw [jsize]
                have hlen : (printVal (JSValue.obj ((k, v) :: fs))).length =
                    (printFieldsCore ((k, v) :: fs)).length + 2 := by
                  simp [printVal]
                omega
      · intro vs hne hj
        cases vs with
        | nil => exact absurd rfl hne
        | cons v vs =>
            cases vs with
            | nil =>
                have hjv : jsize v ≤ g := by
                  simp [jsizeElems] at hj
                  omega
                have := IHA v hjv
                rw [printElemsCore_single]
                simp [jsizeElems]
                omega
            | cons w ws =>
                have hjv : jsize v ≤ g := by
                  simp [jsizeElems] at hj
                  omega
                have hjE : jsizeElems (w :: ws) ≤ g := by
                  simp [jsizeElems] at hj ⊢
                  omega
                have h1 := IHA v hjv
                have h2 := IHB (w :: ws) (by simp) hjE
                rw [printElemsCore_cons₂]
                simp [jsizeElems] at h2 ⊢
                omega
      · intro fs hne hj
        cases fs with
        | nil => exact absurd rfl hne
        | cons f fs =>
            obtain ⟨k, v⟩ := f
            cases fs with
            | nil =>
                have hjv : jsize v ≤ g := by
                  simp [jsizeFields] at hj
                  omega
                have := IHA v hjv
                rw [printFieldsCore_single]
                simp [jsizeFields]
                omega
            | cons f2 fs =>
                obtain ⟨kf, vf⟩ := f2
                have hjv : jsize v ≤ g := by
                  simp [jsizeFields] at hj
                  omega
                have hjF : jsizeFields ((kf, vf) :: fs) ≤ g := by
                  simp [jsizeFields] at hj ⊢
                  omega
                have h1 := IHA v hjv
                have h2 := IHC ((kf, vf) :: fs) (by simp) hjF
                rw [printFieldsCore_cons₂]
                simp [jsizeFields] at h2 ⊢
                omega

theorem jsonParse_stringify (v : JSValue) (h : serializable v = true) :
    jsonParse (jsonStringify v) = .ok v := by
  have hlen : jsize v ≤ (printVal v).length := (jsize_le_len (jsize v)).1 v le_rfl
  have hA := (parse_print_all ((printVal v).length + 1)).1 v [] (by omega) h rfl
  have h2 : parseVal ((printVal v).length + 1) (printVal v) = some (v, []) := by
    rwa [List.append_nil] at hA
  unfold jsonParse
  have hdata : (jsonStringify v).data = printVal v := rfl
  rw [hdata, h2]
  simp [skipWs]

/- ================= claim theorems ================= -/

/-- C1: codec round trip with no typeUrl supplied: for every string,
every finite decimal-representable number, every boolean, and every
cycle-free JSON-serializable structured value (serializable v rules out
only NaN, which is not finite), unpackAny (packAny v) recovers v
exactly. -/
theorem claim_C1_codec_roundtrip (v : JSValue) (h : serializable v = true) :
    ProtobufHelper.unpackAny (ProtobufHelper.packAny v none) = Except.ok v := by
  have hSS : strIncludes "type.googleapis.com/google.protobuf.StringValue"
      "StringValue" = true := by decide
  have hDS : strIncludes "type.googleapis.com/google.protobuf.DoubleValue"
      "StringValue" = false := by decide
  have hDD : strIncludes "type.googleapis.com/google.protobuf.DoubleValue"
      "DoubleValue" = true := by decide
  have hBS : strIncludes "type.googleapis.com/google.protobuf.BoolValue"
      "StringValue" = false := by decide
  have hBD : strIncludes "type.googleapis.com/google.protobuf.BoolValue"
      "DoubleValue" = false := by decide
  have hBB : strIncludes "type.googleapis.com/google.protobuf.BoolValue"
      "BoolValue" = true := by decide
  have hTS : strIncludes "type.googleapis.com/google.protobuf.Struct"
      "StringValue" = false := by decide
  have hTD : strIncludes "type.googleapis.com/google.protobuf.Struct"
      "DoubleValue" = false := by decide
  have hTB : strIncludes "type.googleapis.com/google.protobuf.Struct"
      "BoolValue" = false := by decide
  have hTT : strIncludes "type.googleapis.com/google.protobuf.Struct"
      "Struct" = true := by decide
  have hbt : (("true" : String) == "true") = true := rfl
  have hbf : (("false" : String) == "true") = false := rfl
  cases v with
  | str s =>
      simp [ProtobufHelper.packAny, ProtobufHelper.unpackAny, jsOrDefault, hSS]
  | num n =>
      cases n with
      | nan => simp [serializable] at h
      | fin m e =>
          simp [ProtobufHelper.packAny, ProtobufHelper.unpackAny, jsOrDefault,
            hDS, hDD, parseFloatJS_print]
  | bool b =>
      cases b <;>
        simp [ProtobufHelper.packAny, ProtobufHelper.unpackAny, jsOrDefault,
          hBS, hBD, hBB, hbt, hbf]
  | null =>
      simp [ProtobufHelper.packAny, ProtobufHelper.unpackAny, jsOrDefault,
        hTS, hTD, hTB, hTT, jsonParse_stringify _ h]
  | arr vs =>
      simp [ProtobufHelper.packAny, ProtobufHelper.unpackAny, jsOrDefault,
        hTS, hTD, hTB, hTT, jsonParse_stringify _ h]
  | obj fs =>
      simp [ProtobufHelper.packAny, ProtobufHelper.unpackAny, jsOrDefault,
        hTS, hTD, hTB, hTT, jsonParse_stringify _ h]

/-- Witness for C1 at a concrete structured value containing a string, a
decimal number, a boolean and null. -/
theorem claim_C1_witness :
    serializable (JSValue.obj [("msg", .str "hi"),
      ("xs", .arr [.num (.fin 25 1), .bool true, .null])]) = true ∧
    ProtobufHelper.unpackAny (ProtobufHelper.packAny (JSValue.obj [("msg", .str "hi"),
      ("xs", .arr [.num (.fin 25 1), .bool true, .null])]) none) =
      Except.ok (JSValue.obj [("msg", .str "hi"),
        ("xs", .arr [.num (.fin 25 1), .bool true, .null])]) :=
  ⟨rfl, claim_C1_codec_roundtrip _ rfl⟩

/-- C2 counterexample: the spec scenario supplies the option under the key
"op", but MyCustomPlugin.execute reads options.operation, so the default
"uppercase" transform runs and the result does not contain "olleh". -/
theorem claim_C2_counterexample :
    strIncludes (MyCustomPlugin.execute ⟨[],
      [("op", ProtobufHelper.packAny (.str "reverse") none)], "hello"⟩).result
      "olleh" = false := rfl

/-- C2 amended: with the option supplied under the key "operation" (the key
the code actually reads), the request with input "hello" yields a result
containing the substring "olleh". -/
theorem claim_C2_reverse_scenario :
    strIncludes (MyCustomPlugin.execute ⟨[],
      [("operation", ProtobufHelper.packAny (.str "reverse") none)], "hello"⟩).result
      "olleh" = true := rfl

/-- C3 counterexample: a supplied empty-string typeIdentifier does not
replace the inferred tag (the || default applies), refuting the claim for
every supplied typeIdentifier. -/
theorem claim_C3_counterexample :
    (ProtobufHelper.packAny (.str "a") (some "")).typeUrl =
      "type.googleapis.com/google.protobuf.StringValue" ∧
    (ProtobufHelper.packAny (.str "a") (some "")).typeUrl ≠ "" :=
  ⟨rfl, by decide⟩

/-- C3 amended: packAny branch selection: strings are tagged StringValue
and stored verbatim, numbers DoubleValue with their decimal text, booleans
BoolValue with "true"/"false", and everything else Struct with its JSON
serialization; every supplied non-empty typeIdentifier replaces the
inferred tag while leaving the encoded payload unchanged. -/
theorem claim_C3_pack_branches :
    (∀ s, ProtobufHelper.packAny (.str s) none =
      ⟨"type.googleapis.com/google.protobuf.StringValue", s⟩) ∧
    (∀ n, ProtobufHelper.packAny (.num n) none =
      ⟨"type.googleapis.com/google.protobuf.DoubleValue", jsNumToString n⟩) ∧
    (∀ b, ProtobufHelper.packAny (.bool b) none =
      ⟨"type.googleapis.com/google.protobuf.BoolValue",
        if b then "true" else "false"⟩) ∧
    (ProtobufHelper.packAny .null none =
      ⟨"type.googleapis.com/google.protobuf.Struct", jsonStringify .null⟩) ∧
    (∀ vs, ProtobufHelper.packAny (.arr vs) none =
      ⟨"type.googleapis.com/google.protobuf.Struct", jsonStringify (.arr vs)⟩) ∧
    (∀ fs, ProtobufHelper.packAny (.obj fs) none =
      ⟨"type.googleapis.com/google.protobuf.Struct", jsonStringify (.obj fs)⟩) ∧
    (∀ v t, t ≠ "" → ProtobufHelper.packAny v (some t) =
      ⟨t, (ProtobufHelper.packAny v none).value⟩) := by
  refine ⟨fun _ => rfl, fun _ => rfl, fun _ => rfl, rfl, fun _ => rfl, fun _ => rfl, ?_⟩
  intro v t ht
  cases v <;> simp [ProtobufHelper.packAny, jsOrDefault, ht]

/-- Witness for the override part of C3 at a concrete number and tag. -/
theorem claim_C3_witness :
    ("custom/Tag" : String) ≠ "" ∧
    ProtobufHelper.packAny (.num (.fin 3 0)) (some "custom/Tag") =
      ⟨"custom/Tag", (ProtobufHelper.packAny (.num (.fin 3 0)) none).value⟩ :=
  ⟨by decide, claim_C3_pack_branches.2.2.2.2.2.2 _ _ (by decide)⟩

/-- C4: unpackAny tests the tag against StringValue, DoubleValue,
BoolValue, Struct in that priority order; the first substring match decides
the decoding, and with no match the raw text is returned as a string. -/
theorem claim_C4_unpack_dispatch (a : AnyMsg) :
    (strIncludes a.typeUrl "StringValue" = true →
      ProtobufHelper.unpackAny a = .ok (.str a.value)) ∧
    (strIncludes a.typeUrl "StringValue" = false →
      strIncludes a.typeUrl "DoubleValue" = true →
      ProtobufHelper.unpackAny a = .ok (.num (parseFloatJS a.value))) ∧
    (strIncludes a.typeUrl "StringValue" = false →
      strIncludes a.typeUrl "DoubleValue" = false →
      strIncludes a.typeUrl "BoolValue" = true →
      ProtobufHelper.unpackAny a = .ok (.bool (a.value == "true"))) ∧
    (strIncludes a.typeUrl "StringValue" = false →
      strIncludes a.typeUrl "DoubleValue" = false →
      strIncludes a.typeUrl "BoolValue" = false →
      strIncludes a.typeUrl "Struct" = true →
      ProtobufHelper.unpackAny a = jsonParse a.value) ∧
    (strIncludes a.typeUrl "StringValue" = false →
      strIncludes a.typeUrl "DoubleValue" = false →
      strIncludes a.typeUrl "BoolValue" = false →
      strIncludes a.typeUrl "Struct" = false →
      ProtobufHelper.unpackAny a = .ok (.str a.value)) := by
  refine ⟨?_, ?_, ?_, ?_, ?_⟩ <;>
    · intros
      simp [ProtobufHelper.unpackAny, *]

/-- Witness for C4 on a tag that matches only the DoubleValue marker. -/
theorem claim_C4_witness :
    strIncludes "x.DoubleValue" "StringValue" = false ∧
    strIncludes "x.DoubleValue" "DoubleValue" = true ∧
    ProtobufHelper.unpackAny ⟨"x.DoubleValue", "2.5"⟩ =
      Except.ok (.num (.fin 25 1)) := by
  refine ⟨by decide, by decide, ?_⟩
  have h := (claim_C4_unpack_dispatch ⟨"x.DoubleValue", "2.5"⟩).2.1 (by decide) (by decide)
  rw [h]
  rfl

/-- C5 counterexample: with a caller-supplied typeUrl the packed tag is
that string, so packing a plain object can produce the StringValue tag. -/
theorem claim_C5_counterexample :
    (ProtobufHelper.packAny (.obj [])
      (some "type.googleapis.com/google.protobuf.StringValue")).typeUrl =
      "type.googleapis.com/google.protobuf.StringValue" := rfl

/-- C5 amended: packing a plain object with no typeUrl supplied (or with
the falsy empty string) always tags it Struct, never StringValue,
DoubleValue or BoolValue. -/
theorem claim_C5_obj_tag (fs : List (String × JSValue)) :
    (ProtobufHelper.packAny (.obj fs) none).typeUrl =
      "type.googleapis.com/google.protobuf.Struct" ∧
    (ProtobufHelper.packAny (.obj fs) (some "")).typeUrl =
      "type.googleapis.com/google.protobuf.Struct" ∧
    (ProtobufHelper.packAny (.obj fs) none).typeUrl ≠
      "type.googleapis.com/google.protobuf.StringValue" ∧
    (ProtobufHelper.packAny (.obj fs) none).typeUrl ≠
      "type.googleapis.com/google.protobuf.DoubleValue" ∧
    (ProtobufHelper.packAny (.obj fs) none).typeUrl ≠
      "type.googleapis.com/google.protobuf.BoolValue" := by
  have hT : (ProtobufHelper.packAny (.obj fs) none).typeUrl =
      "type.googleapis.com/google.protobuf.Struct" := rfl
  refine ⟨rfl, rfl, ?_, ?_, ?_⟩ <;> rw [hT] <;> decide

/-- C6: the dispatcher passes a resolved response to the callback
unmodified and maps any rejection to a single INTERNAL (13) transport
error whose message is the thrown error's message, or the fixed
placeholder for a thrown non-Error value; it never propagates the
failure. -/
theorem claim_C6_dispatcher :
    grpcStatusInternal = 13 ∧
    (∀ r, PluginServer.handleExecute (.success r) = .ok r) ∧
    (∀ m, PluginServer.handleExecute (.failure (.error m)) =
      .err grpcStatusInternal m) ∧
    (∀ v, PluginServer.handleExecute (.failure (.other v)) =
      .err grpcStatusInternal "Unknown error") :=
  ⟨rfl, fun _ => rfl, fun _ => rfl, fun _ => rfl⟩

/-- C7 counterexample: with PLUGIN_PORT set to the unparseable "abc",
the requested port is parseInt's NaN, not 0. -/
theorem claim_C7_counterexample :
    requestedPort (some "abc") = none ∧ requestedPort (some "abc") ≠ some 0 :=
  ⟨rfl, by decide⟩

/-- C7 amended: an unset or empty PLUGIN_PORT requests port 0; a non-empty
value requests parseInt of it (which is used even when it is NaN); a
parseable value such as "5005" is used as the requested port; and after a
successful bind exactly one stdout line has the literal format
PLUGIN_PORT=<assignedPort>. -/
theorem claim_C7_port_and_handshake :
    requestedPort none = some 0 ∧
    requestedPort (some "") = some 0 ∧
    (∀ s, s ≠ "" → requestedPort (some s) = parseIntJS s) ∧
    parseIntJS "5005" = some 5005 ∧
    (∀ env bind p, bind (requestedPort env) = Except.ok p →
      (PluginMain.start env bind).stdout.countP
        (fun line => line == "PLUGIN_PORT=" ++ natToString p) = 1) := by
  refine ⟨rfl, rfl, ?_, rfl, ?_⟩
  · intro s hs
    simp [requestedPort, hs]
  · intro env bind p hb
    unfold PluginMain.start
    rw [hb]
    have hne : ("Plugin server started on port " ++ natToString p) ≠
        ("PLUGIN_PORT=" ++ natToString p) := by
      intro hh
      have hlen := congrArg String.length hh
      rw [String.length_append, String.length_append] at hlen
      have h30 : ("Plugin server started on port " : String).length = 30 := rfl
      have h12 : ("PLUGIN_PORT=" : String).length = 12 := rfl
      rw [h30, h12] at hlen
      omega
    simp [MainOutcome.stdout, List.countP_cons, hne]

/-- Witness for C7 at PLUGIN_PORT=5005 and a bind succeeding on 5005. -/
theorem claim_C7_witness :
    ("5005" : String) ≠ "" ∧
    requestedPort (some "5005") = parseIntJS "5005" ∧
    ((fun _ => Except.ok 5005 : Option Int → Except String Nat)
      (requestedPort (some "5005")) = Except.ok 5005) ∧
    (PluginMain.start (some "5005") (fun _ => Except.ok 5005)).stdout.countP
      (fun line => line == "PLUGIN_PORT=" ++ natToString 5005) = 1 :=
  ⟨by decide, claim_C7_port_and_handshake.2.2.1 "5005" (by decide), rfl,
    claim_C7_port_and_handshake.2.2.2.2 (some "5005") (fun _ => Except.ok 5005)
      5005 rfl⟩

/-- C8: a bind failure makes PluginMain.start exit with status 1 (bind is
applied exactly once, so there is no retry); on a successful bind the two
recognized termination signals SIGTERM and SIGINT are registered, each
stopping the server and then exiting with status 0. -/
theorem claim_C8_shutdown_and_exit (env : Option String)
    (bind : Option Int → Except String Nat) :
    (∀ e, bind (requestedPort env) = Except.error e →
      PluginMain.start env bind = .exited 1) ∧
    (∀ p, bind (requestedPort env) = Except.ok p →
      (PluginMain.start env bind).handlers =
        [("SIGTERM", .stopThenExit 0), ("SIGINT", .stopThenExit 0)]) := by
  constructor
  · intro e he
    unfold PluginMain.start
    rw [he]
  · intro p hp
    unfold PluginMain.start
    rw [hp]
    rfl

/-- Witness for C8 with a failing and a succeeding bind step. -/
theorem claim_C8_witness :
    ((fun _ => Except.error "EADDRINUSE" : Option Int → Except String Nat)
      (requestedPort none) = Except.error "EADDRINUSE") ∧
    PluginMain.start none (fun _ => Except.error "EADDRINUSE") = .exited 1 ∧
    ((fun _ => Except.ok 7777 : Option Int → Except String Nat)
      (requestedPort none) = Except.ok 7777) ∧
    (PluginMain.start none (fun _ => Except.ok 7777)).handlers =
      [("SIGTERM", .stopThenExit 0), ("SIGINT", .stopThenExit 0)] :=
  ⟨rfl, (claim_C8_shutdown_and_exit none _).1 _ rfl, rfl,
    (claim_C8_shutdown_and_exit none _).2 7777 rfl⟩

/-- C9: supplying the empty string as the typeUrl argument does not
override the tag: the truthiness test discards it and packAny behaves
exactly as with no typeUrl argument. -/
theorem claim_C9_empty_typeurl (v : JSValue) :
    ProtobufHelper.packAny v (some "") = ProtobufHelper.packAny v none := by
  cases v <;> rfl

/-- C10: MyCustomPlugin.execute always resolves with a response: a
successful try block is returned as is, and any internal failure is caught
and turned into a response whose result is "Error: " followed by the
error's message (or "Unknown error" for a thrown non-Error value, per
jsErrorMessage). -/
theorem claim_C10_execute_total (request : ExecutionRequestBody) :
    (∀ resp, MyCustomPlugin.tryExecute request = Except.ok resp →
      MyCustomPlugin.execute request = resp) ∧
    (∀ e, MyCustomPlugin.tryExecute request = Except.error e →
      MyCustomPlugin.execute request = ⟨"Error: " ++ jsErrorMessage e⟩) := by
  constructor
  · intro resp hx
    unfold MyCustomPlugin.execute
    rw [hx]
  · intro e hx
    unfold MyCustomPlugin.execute
    rw [hx]

/-- Witness for C10 at a request whose option holds a Struct-tagged value
with malformed JSON, making the try block throw. -/
theorem claim_C10_witness :
    MyCustomPlugin.tryExecute ⟨[], [("k",
      ⟨"type.googleapis.com/google.protobuf.Struct", "\x7b"⟩)], "x"⟩ =
      Except.error (.error "Unexpected end of JSON input") ∧
    MyCustomPlugin.execute ⟨[], [("k",
      ⟨"type.googleapis.com/google.protobuf.Struct", "\x7b"⟩)], "x"⟩ =
      ⟨"Error: " ++ jsErrorMessage (.error "Unexpected end of JSON input")⟩ :=
  ⟨rfl, (claim_C10_execute_total _).2 _ rfl⟩
